import Mathlib

/-!
# Verification of the ion-rust core codecs, reader and writer

A shallow embedding of the core of the `ion-rust` streaming reader/writer
library, together with proofs about its behaviour.  Machine integers are
modelled as `Nat` with explicit `% 2 ^ w` wherever the Rust source relies on
wrapping/truncating semantics; byte streams are `List Nat` with every element
below 256; fallible operations return `Option` or carry an explicit error
component.
-/

set_option maxHeartbeats 1600000

namespace IonRust

/-! ## Ion 1.0 VarUInt codec (src/binary/var_uint.rs) -/

/-- The encoding loop of `VarUInt::write_u64` (src/binary/var_uint.rs).  The
source fills a 10-byte buffer right to left; `fuel` is the number of buffer
bytes still available, `seed` is the initial content of the buffer byte the
current iteration writes to (`0x80` for the last buffer byte, which is
pre-seeded with the end flag, and `0` for all the others).  The returned list
is in loop order, i.e. the reverse of the order in which the bytes are
emitted to the sink. -/
def writeU64Loop : Nat → Nat → Nat → List Nat
  | 0, _, _ => []
  | fuel + 1, magnitude, seed =>
    let b := seed ||| magnitude % 128
    if magnitude / 128 = 0 then [b]
    else b :: writeU64Loop fuel (magnitude / 128) 0

/-- `VarUInt::write_u64` (src/binary/var_uint.rs): the bytes the encoder
emits to the sink for the given magnitude.  Value `0` is special-cased to the
single terminator byte `0b1000_0000`. -/
def VarUInt.write_u64 (magnitude : Nat) : List Nat :=
  if magnitude = 0 then [0b10000000]
  else (writeU64Loop 10 magnitude 0b10000000).reverse

/-- The `byte_processor` loop of `VarUInt::read` (src/binary/var_uint.rs), as
driven by `read_next_byte_while`: each byte shifts the accumulated `magnitude`
left by 7 (usize arithmetic, so bits at and above 2^64 are discarded) and ORs
in the byte's low 7 bits; reading stops with the first byte whose high bit is
set.  Returns `(bytes_consumed, magnitude)`, or `none` if the input ends
before a terminator byte. -/
def VarUInt.readAux : List Nat → Nat → Nat → Option (Nat × Nat)
  | [], _, _ => none
  | byte :: rest, magnitude, count =>
    let m := magnitude * 128 % 2 ^ 64 ||| byte % 128
    if byte < 128 then VarUInt.readAux rest m (count + 1)
    else some (count + 1, m)

/-- `VarUInt::read` (src/binary/var_uint.rs): decodes one VarUInt from the
head of `bytes`, returning `(size_in_bytes, value)`.  Encodings longer than
10 bytes are rejected, as are exactly-10-byte encodings whose first byte
exceeds 1 (`overflow_risk`). -/
def VarUInt.read (bytes : List Nat) : Option (Nat × Nat) :=
  match VarUInt.readAux bytes 0 0 with
  | none => none
  | some (size, value) =>
    if 10 < size ∨ (size = 10 ∧ 1 < bytes.headD 0) then none
    else some (size, value)

/-! ## Ion 1.1 VarUInt codec (src/ion_1_1/alt.rs) -/

/-- The first `n` bytes of a `u64`'s little-endian byte representation
(`u64::to_le_bytes` truncated to `n` bytes). -/
def toLEBytes : Nat → Nat → List Nat
  | 0, _ => []
  | n + 1, value => value % 256 :: toLEBytes n (value / 256)

/-- `byteorder`'s `read_u64::<LittleEndian>`: the value denoted by the first
8 bytes of the list, little-endian. -/
def fromLEBytes (bytes : List Nat) : Nat :=
  (bytes.take 8).foldr (fun b acc => b + 256 * acc) 0

/-- `u64::leading_zeros`, for values below 2^64: the number of leading zero
bits of the 64-bit representation, written as an explicit threshold chain so
that it evaluates by kernel reduction. -/
def u64_leading_zeros (value : Nat) : Nat :=
  if 2 ^ 63 ≤ value then 0
  else if 2 ^ 62 ≤ value then 1
  else if 2 ^ 61 ≤ value then 2
  else if 2 ^ 60 ≤ value then 3
  else if 2 ^ 59 ≤ value then 4
  else if 2 ^ 58 ≤ value then 5
  else if 2 ^ 57 ≤ value then 6
  else if 2 ^ 56 ≤ value then 7
  else if 2 ^ 55 ≤ value then 8
  else if 2 ^ 54 ≤ value then 9
  else if 2 ^ 53 ≤ value then 10
  else if 2 ^ 52 ≤ value then 11
  else if 2 ^ 51 ≤ value then 12
  else if 2 ^ 50 ≤ value then 13
  else if 2 ^ 49 ≤ value then 14
  else if 2 ^ 48 ≤ value then 15
  else if 2 ^ 47 ≤ value then 16
  else if 2 ^ 46 ≤ value then 17
  else if 2 ^ 45 ≤ value then 18
  else if 2 ^ 44 ≤ value then 19
  else if 2 ^ 43 ≤ value then 20
  else if 2 ^ 42 ≤ value then 21
  else if 2 ^ 41 ≤ value then 22
  else if 2 ^ 40 ≤ value then 23
  else if 2 ^ 39 ≤ value then 24
  else if 2 ^ 38 ≤ value then 25
  else if 2 ^ 37 ≤ value then 26
  else if 2 ^ 36 ≤ value then 27
  else if 2 ^ 35 ≤ value then 28
  else if 2 ^ 34 ≤ value then 29
  else if 2 ^ 33 ≤ value then 30
  else if 2 ^ 32 ≤ value then 31
  else if 2 ^ 31 ≤ value then 32
  else if 2 ^ 30 ≤ value then 33
  else if 2 ^ 29 ≤ value then 34
  else if 2 ^ 28 ≤ value then 35
  else if 2 ^ 27 ≤ value then 36
  else if 2 ^ 26 ≤ value then 37
  else if 2 ^ 25 ≤ value then 38
  else if 2 ^ 24 ≤ value then 39
  else if 2 ^ 23 ≤ value then 40
  else if 2 ^ 22 ≤ value then 41
  else if 2 ^ 21 ≤ value then 42
  else if 2 ^ 20 ≤ value then 43
  else if 2 ^ 19 ≤ value then 44
  else if 2 ^ 18 ≤ value then 45
  else if 2 ^ 17 ≤ value then 46
  else if 2 ^ 16 ≤ value then 47
  else if 2 ^ 15 ≤ value then 48
  else if 2 ^ 14 ≤ value then 49
  else if 2 ^ 13 ≤ value then 50
  else if 2 ^ 12 ≤ value then 51
  else if 2 ^ 11 ≤ value then 52
  else if 2 ^ 10 ≤ value then 53
  else if 2 ^ 9 ≤ value then 54
  else if 2 ^ 8 ≤ value then 55
  else if 2 ^ 7 ≤ value then 56
  else if 2 ^ 6 ≤ value then 57
  else if 2 ^ 5 ≤ value then 58
  else if 2 ^ 4 ≤ value then 59
  else if 2 ^ 3 ≤ value then 60
  else if 2 ^ 2 ≤ value then 61
  else if 2 ^ 1 ≤ value then 62
  else if 2 ^ 0 ≤ value then 63
  else 64

/-- The `BYTES_NEEDED_CACHE` table built by `init_bytes_needed_cache`
(src/ion_1_1/alt.rs): entry `lz < 64` holds `ceil((64 - lz) / 7)` and entry
64 holds 1 (the value zero still needs one byte). -/
def BYTES_NEEDED_CACHE (leading_zeros : Nat) : Nat :=
  if leading_zeros < 64 then (64 - leading_zeros + 7 - 1) / 7 else 1

/-- `encode_var_uint` (src/ion_1_1/alt.rs): the bytes written to `output`.
The `as u8` / `as u16` casts and the `u64` shifts of the source are rendered
as the corresponding truncations `% 2 ^ w`. -/
def encode_var_uint (value : Nat) : List Nat :=
  if value < 0x80 then [value * 2 % 256 + 1]
  else if value < 0x4000 then toLEBytes 2 (value * 4 % 2 ^ 16 + 2)
  else
    let num_encoded_bytes := BYTES_NEEDED_CACHE (u64_leading_zeros value)
    if num_encoded_bytes ≤ 8 then
      let flag_bits := 1 <<< (num_encoded_bytes - 1)
      let encoded_value := (value <<< num_encoded_bytes) % 2 ^ 64 ||| flag_bits
      (toLEBytes 8 encoded_value).take num_encoded_bytes
    else if num_encoded_bytes = 9 then
      0x00 :: toLEBytes 8 ((value <<< 1) % 2 ^ 64 + 1)
    else
      0x00 :: (((value &&& 0b111111) <<< 2) % 256 ||| 0b10) :: toLEBytes 8 (value >>> 6)

/-- `u8::trailing_zeros`, for values below 256. -/
def u8_trailing_zeros (b : Nat) : Nat :=
  if b % 2 = 1 then 0
  else if b % 4 = 2 then 1
  else if b % 8 = 4 then 2
  else if b % 16 = 8 then 3
  else if b % 32 = 16 then 4
  else if b % 64 = 32 then 5
  else if b % 128 = 64 then 6
  else if b % 256 = 128 then 7
  else 8

/-- `decode_var_uint` (src/ion_1_1/alt.rs).  An input shorter than 10 bytes
is first copied into a zeroed 10-byte buffer.  `1u64.checked_shl(bits)` is
`none` exactly when `bits = 64` here, in which case the mask falls back to
`u64::MAX`.  Returns `(size_in_bytes, value)`; `none` models the decoding
errors. -/
def decode_var_uint (bytes : List Nat) : Option (Nat × Nat) :=
  let bs := if 10 ≤ bytes.length then bytes
            else bytes ++ List.replicate (10 - bytes.length) 0
  let b1 := bs.headD 0
  let b2 := (bs.drop 1).headD 0
  if b1 = 0 ∧ b2 &&& 0b11 = 0b00 then none
  else if b1 = 0 ∧ b2 &&& 0b11 = 0b10 then
    let low_six := b2 >>> 2
    let remaining_magnitude := fromLEBytes (bs.drop 2)
    if 2 ^ 58 - 1 < remaining_magnitude then none
    else some (10, remaining_magnitude <<< 6 ||| low_six)
  else if b1 = 0 then
    some (9, fromLEBytes (bs.drop 1) >>> 1)
  else
    let num_encoded_bytes := u8_trailing_zeros b1 + 1
    let num_encoded_bits := 8 * num_encoded_bytes
    let mask := if num_encoded_bits < 64 then 2 ^ num_encoded_bits - 1 else 2 ^ 64 - 1
    let encoded_value := fromLEBytes bs
    some (num_encoded_bytes, (encoded_value &&& mask) >>> num_encoded_bytes)

/-! ## Symbol table (src/symbol_table.rs, src/constants.rs) -/

/-- `v1_0::SYSTEM_SYMBOLS` (src/constants.rs). -/
def SYSTEM_SYMBOLS : List String :=
  ["$0", "$ion", "$ion_1_0", "$ion_symbol_table", "name", "version",
   "imports", "symbols", "max_id", "$ion_shared_symbol_table"]

/-- The state of `SymbolTable` (src/symbol_table.rs).  The `HashMap` is
modelled as an association list whose most recent insertion comes first and
whose keys are unique. -/
structure SymbolTable where
  symbols_by_id : List String
  ids_by_text : List (String × Nat)
deriving DecidableEq

/-- `HashMap::insert`: any existing entry for the key is replaced. -/
def hashInsert (m : List (String × Nat)) (k : String) (v : Nat) :
    List (String × Nat) :=
  (k, v) :: m.filter fun p => p.1 ≠ k

/-- `HashMap::get`: the value stored for the key, if any. -/
def assocLookup (m : List (String × Nat)) (k : String) : Option Nat :=
  match m with
  | [] => none
  | (a, b) :: t => if k = a then some b else assocLookup t k

/-- `SymbolTable::initialize` (src/symbol_table.rs): pushes each system
symbol onto `symbols_by_id` and inserts its id into `ids_by_text`. -/
def SymbolTable.initialize (st : SymbolTable) : SymbolTable :=
  SYSTEM_SYMBOLS.enum.foldl
    (fun t p =>
      { symbols_by_id := t.symbols_by_id ++ [p.2],
        ids_by_text := hashInsert t.ids_by_text p.2 p.1 })
    st

/-- `SymbolTable::new` (src/symbol_table.rs). -/
def SymbolTable.new : SymbolTable :=
  SymbolTable.initialize { symbols_by_id := [], ids_by_text := [] }

/-- `SymbolTable::reset` (src/symbol_table.rs): clears both containers, then
re-runs `initialize`. -/
def SymbolTable.reset (_st : SymbolTable) : SymbolTable :=
  SymbolTable.initialize { symbols_by_id := [], ids_by_text := [] }

/-- `SymbolTable::intern` (src/symbol_table.rs): returns the existing id if
the text is present, otherwise appends the text and records the new id.
Returns the updated table and the id. -/
def SymbolTable.intern (st : SymbolTable) (text : String) : SymbolTable × Nat :=
  match assocLookup st.ids_by_text text with
  | some id => (st, id)
  | none =>
    let id := st.symbols_by_id.length
    ({ symbols_by_id := st.symbols_by_id ++ [text],
       ids_by_text := hashInsert st.ids_by_text text id }, id)

/-- `SymbolTable::text_for` (src/symbol_table.rs). -/
def SymbolTable.text_for (st : SymbolTable) (sid : Nat) : Option String :=
  st.symbols_by_id.get? sid

/-- `SymbolTable::sid_for` (src/symbol_table.rs). -/
def SymbolTable.sid_for (st : SymbolTable) (text : String) : Option Nat :=
  assocLookup st.ids_by_text text

/-- `SymbolTable::len` (src/symbol_table.rs). -/
def SymbolTable.len (st : SymbolTable) : Nat :=
  st.symbols_by_id.length

/-! ## User-level reader (src/Reader.rs) -/

/-- Modelled from the spec: the `IonType` enum (§3 DATA MODEL).  Its
definition is not among the provided sources; only its uses are. -/
inductive IonType
  | Null | Bool | Int | Float | Decimal | Timestamp | Symbol | String
  | Clob | Blob | List | SExp | Struct
deriving DecidableEq

/-- One element of an LST's `symbols` list, as seen by the inner
`while let Some(Value(IonType::String, false))` loop of
`Reader::read_symbol_table`: either a non-null string carrying text, or
anything else (which stops the loop). -/
inductive LstElem
  | str (text : String)
  | nonStr (t : IonType) (is_null : Bool)
deriving DecidableEq

/-- The payload of an LST struct field that `Reader::read_symbol_table`
inspects: a symbol value's sid (read by `read_symbol_id`), a list's elements,
or nothing (for field shapes the source does not support). -/
inductive FieldPayload
  | symbolId (sid : Nat)
  | listElems (elems : List LstElem)
  | noPayload
deriving DecidableEq

/-- One field of a struct, as observed by the cursor inside
`Reader::read_symbol_table`: its field id, its value's type and nullness, and
the payload the source would read from it. -/
structure LstField where
  field_id : Nat
  ftype : IonType
  fnull : Bool
  payload : FieldPayload
deriving DecidableEq

/-- The string prefix collected by the inner
`while let Some(Value(IonType::String, false))` loop: text of the leading
non-null strings; the loop stops at the first other element (the remainder is
skipped by `step_out`). -/
def collectStringPrefix : List LstElem → List String
  | LstElem.str t :: rest => t :: collectStringPrefix rest
  | _ => []

/-- The `while let` loop of `Reader::read_symbol_table` (src/Reader.rs).
For each field: field id 6 (`imports`) holding a non-null symbol requires sid
3 and sets `is_append`; field id 7 (`symbols`) holding a non-null list
collects its leading strings; anything else hits `unimplemented!`, modelled
as `none`.  After each field, the table is reset unless `is_append` is set,
and the collected strings are drained into `intern`. -/
def read_symbol_table_loop :
    List LstField → Bool → SymbolTable → Option SymbolTable
  | [], _, st => some st
  | f :: rest, is_append, st =>
    let step : Option (Bool × List String) :=
      match f.field_id, f.ftype, f.fnull, f.payload with
      | 6, IonType.Symbol, false, FieldPayload.symbolId sid =>
        if sid ≠ 3 then none else some (true, [])
      | 7, IonType.List, false, FieldPayload.listElems elems =>
        some (is_append, collectStringPrefix elems)
      | _, _, _, _ => none
    match step with
    | none => none
    | some (is_append2, new_symbols) =>
      let st1 := if is_append2 = false then st.reset else st
      let st2 := new_symbols.foldl (fun t s => (SymbolTable.intern t s).1) st1
      read_symbol_table_loop rest is_append2 st2

/-- One top-level item produced by the cursor that `Reader::next` consumes:
an Ion version marker, or a value carrying its type, nullness, annotation
ids, and (when it is a struct) its fields. -/
inductive RawItem
  | ivm
  | value (ion_type : IonType) (is_null : Bool) (annots : List Nat)
      (fields : List LstField)
deriving DecidableEq

/-- `Reader::next` (src/Reader.rs): loops over the cursor's items.  An IVM
resets the symbol table and continues; a non-null struct whose annotation id
slice matches `[3, ..]` is interpreted as a symbol table and skipped; any
other value is returned.  The result is the symbol table after the call, the
unconsumed cursor tail, and the yielded `(ion_type, is_null)` (or `none` at
end of stream); an outer `none` models the panics inside
`read_symbol_table`. -/
def Reader.next :
    List RawItem → SymbolTable →
      Option (SymbolTable × List RawItem × Option (IonType × Bool))
  | [], st => some (st, [], none)
  | RawItem.ivm :: rest, st => Reader.next rest st.reset
  | RawItem.value t n annots fields :: rest, st =>
    if t = IonType.Struct ∧ n = false then
      match annots with
      | 3 :: _ =>
        match read_symbol_table_loop fields false st with
        | none => none
        | some st2 => Reader.next rest st2
      | _ => some (st, rest, some (IonType.Struct, false))
    else some (st, rest, some (t, n))

/-! ## Binary writer (src/lazy/encoder/binary/mod.rs, value_writer.rs) -/

/-- `MAX_INLINE_LENGTH` (src/lazy/encoder/binary/value_writer.rs). -/
def MAX_INLINE_LENGTH : Nat := 13

/-- Modelled from the spec: `uint::encode_u64` (src/binary/uint.rs is not
among the provided sources).  Per §4.3/§4.5, an Int body is the magnitude in
big-endian bytes with leading zero bytes stripped, so zero has an empty body
(`Int 0 encodes as 0x20`).  `fuel` is the 8-byte width of a `u64`. -/
def encode_u64_go : Nat → Nat → List Nat
  | 0, _ => []
  | fuel + 1, m => if m = 0 then [] else encode_u64_go fuel (m / 256) ++ [m % 256]

/-- Modelled from the spec: `uint::encode_u64` — see `encode_u64_go`. -/
def encode_u64 (magnitude : Nat) : List Nat :=
  encode_u64_go 8 magnitude

/-- `BinaryValueWriter_1_0::write_i64` (src/lazy/encoder/binary/value_writer.rs):
appends the Int's type descriptor (`0x20 | len` for non-negative values,
`0x30 | len` for negative ones) followed by the big-endian magnitude bytes to
the encoding buffer. -/
def BinaryValueWriter_1_0.write_i64 (encoding_buffer : List Nat) (value : Int) :
    List Nat :=
  let magnitude := value.natAbs
  let bytes_to_write := encode_u64 magnitude
  let encoded_length := bytes_to_write.length
  let type_descriptor :=
    if 0 ≤ value then 0x20 ||| encoded_length % 256
    else 0x30 ||| encoded_length % 256
  encoding_buffer ++ [type_descriptor] ++ bytes_to_write

/-- The state of a `BinaryContainerWriter_1_0` (src/lazy/encoder/binary/mod.rs):
the container's type code (`0xB0`/`0xC0`/`0xD0`), the parent's buffer, and the
container's own scratch buffer. -/
structure BinaryContainerWriter_1_0 where
  type_code : Nat
  parent_buffer : List Nat
  encoding_buffer : List Nat
deriving DecidableEq

/-- `BinaryContainerWriter_1_0::end` (src/lazy/encoder/binary/mod.rs):
returns the parent buffer after the container is closed.  If the encoded body
is at most `MAX_INLINE_LENGTH` bytes long, one byte `type_code | L` is
pushed; otherwise `type_code | 0xE` followed by a VarUInt of the length; then
the scratch buffer's contents are appended. -/
def BinaryContainerWriter_1_0.end_ (w : BinaryContainerWriter_1_0) : List Nat :=
  let body_length := w.encoding_buffer.length
  if body_length ≤ MAX_INLINE_LENGTH then
    w.parent_buffer ++ [w.type_code ||| body_length % 256] ++ w.encoding_buffer
  else
    w.parent_buffer ++ [w.type_code ||| 0xE] ++ VarUInt.write_u64 body_length
      ++ w.encoding_buffer

/-- `RawSymbolTokenRef` (src/raw_symbol_token_ref.rs): a field-name or symbol
token, either a symbol id or inline text. -/
inductive RawSymbolTokenRef
  | symbolId (sid : Nat)
  | text (t : String)
deriving DecidableEq

/-- The error categories of `IonError` used by the embedded operations. -/
inductive IonErrorKind
  | Incomplete
  | Decoding
  | IllegalOperation
  | Encoding
deriving DecidableEq

/-- `BinaryStructWriter_1_0::write` (src/lazy/encoder/binary/mod.rs): writing
a `(name, value)` field into the struct's encoding buffer.  A text token is
rejected with an `Encoding` error before anything is written; a symbol id is
written as a VarUInt followed by the value's encoding (`value_bytes` stands
for the bytes `container.write(value)` appends).  Returns the error, if any,
and the struct's encoding buffer afterwards. -/
def BinaryStructWriter_1_0.write (encoding_buffer : List Nat)
    (name : RawSymbolTokenRef) (value_bytes : List Nat) :
    Option IonErrorKind × List Nat :=
  match name with
  | RawSymbolTokenRef.text _ => (some IonErrorKind.Encoding, encoding_buffer)
  | RawSymbolTokenRef.symbolId sid =>
    (none, encoding_buffer ++ VarUInt.write_u64 sid ++ value_bytes)

/-- The state of a `LazyRawBinaryWriter_1_0` (src/lazy/encoder/binary/mod.rs):
the output sink's accumulated bytes, the bump allocator's live buffers (a
pointer is an index into this list), and the raw pointer to the top-level
encoding buffer, if set. -/
structure WriterState where
  output : List Nat
  arena : List (List Nat)
  encoding_buffer_ptr : Option Nat
deriving DecidableEq

/-- `LazyRawBinaryWriter_1_0::new` (src/lazy/encoder/binary/mod.rs): writes
the Ion 1.0 IVM `E0 01 00 EA` to the output sink, then constructs the writer
with a fresh allocator and no encoding buffer pointer. -/
def LazyRawBinaryWriter_1_0.new (output : List Nat) : WriterState :=
  { output := output ++ [0xE0, 0x01, 0x00, 0xEA],
    arena := [],
    encoding_buffer_ptr := none }

/-- `LazyRawBinaryWriter_1_0::flush` (src/lazy/encoder/binary/mod.rs): writes
the top-level encoding buffer (empty when the pointer is unset) to the output
sink and resets the allocator.  The source leaves `encoding_buffer_ptr`
untouched; dereferencing a pointer into the already-reset arena is modelled
as reading an empty buffer. -/
def LazyRawBinaryWriter_1_0.flush (w : WriterState) : WriterState :=
  let encoding_buffer :=
    match w.encoding_buffer_ptr with
    | some ptr => w.arena.getD ptr []
    | none => []
  { output := w.output ++ encoding_buffer,
    arena := [],
    encoding_buffer_ptr := w.encoding_buffer_ptr }

/-- `LazyRawBinaryWriter_1_0::value_writer` (src/lazy/encoder/binary/mod.rs):
if `encoding_buffer_ptr` is set, the pointed-to buffer is reused; otherwise a
new buffer is allocated in the arena and the pointer is set to it.  Returns
the updated state and the arena index handed to the new value writer. -/
def LazyRawBinaryWriter_1_0.value_writer (w : WriterState) : WriterState × Nat :=
  match w.encoding_buffer_ptr with
  | some ptr => (w, ptr)
  | none =>
    let ptr := w.arena.length
    ({ w with arena := w.arena ++ [[]], encoding_buffer_ptr := some ptr }, ptr)

/-! ## Blocking adapter (src/blocking_lazy_reader.rs) -/

/-- The `Err(Incomplete)` arm of `BlockingLazyRawReader::next`
(src/blocking_lazy_reader.rs).  `result` is the wrapped reader's original
result; `remaining` is the number of unread bytes left in the source, so a
`read_source(read_size)` call returns `min read_size remaining` bytes.  The
loop reads repeatedly; when a read returns zero bytes it either returns
`result` (stream already marked complete) or marks the stream complete; after
every read the read size doubles, capped at `expected_read_size * 10`.  The
loop never re-runs the parser. -/
def blockingNextIncompleteLoop {α : Type} (result : α) :
    Nat → Bool → Nat → Nat → α
  | remaining, true, read_size, expected_read_size =>
    if h0 : min read_size remaining = 0 then result
    else
      blockingNextIncompleteLoop result (remaining - min read_size remaining)
        true (min (read_size * 2) (expected_read_size * 10)) expected_read_size
  | remaining, false, read_size, expected_read_size =>
    if h0 : min read_size remaining = 0 then
      blockingNextIncompleteLoop result remaining true
        (min (read_size * 2) (expected_read_size * 10)) expected_read_size
    else
      blockingNextIncompleteLoop result (remaining - min read_size remaining)
        false (min (read_size * 2) (expected_read_size * 10)) expected_read_size
termination_by remaining stream_complete _ _ =>
  remaining * 2 + (if stream_complete then 0 else 1)
decreasing_by
  all_goals simp_wf
  all_goals
    have _h1 := Nat.min_le_right read_size remaining
  all_goals omega

/-- `BlockingLazyRawReader::next` (src/blocking_lazy_reader.rs): `parse` is
the non-blocking reader's result for the current buffer, `remaining` the
source's unread byte count, `stream_complete` the reader's completion flag,
and `expected_read_size` the configured read size (the loop's initial read
size). -/
def BlockingLazyRawReader.next {α : Type} (parse : Except IonErrorKind α)
    (remaining : Nat) (stream_complete : Bool) (expected_read_size : Nat) :
    Except IonErrorKind α :=
  match parse with
  | Except.ok item => Except.ok item
  | Except.error IonErrorKind.Incomplete =>
    blockingNextIncompleteLoop (Except.error IonErrorKind.Incomplete) remaining
      stream_complete expected_read_size expected_read_size
  | Except.error e => Except.error e

/-! ## Arithmetic and list helper lemmas -/

/-- Disjoint bitwise or is addition: if `a`'s low `k` bits are clear and `b`
fits in `k` bits, then `a ||| b = a + b`. -/
lemma lor_eq_add_of_lt (k a b : Nat) (ha : a % 2 ^ k = 0) (hb : b < 2 ^ k) :
    a ||| b = a + b := by
  have hsplit : a = 2 ^ k * (a / 2 ^ k) := by
    have := Nat.div_add_mod a (2 ^ k)
    omega
  calc a ||| b = 2 ^ k * (a / 2 ^ k) ||| b := by rw [← hsplit]
    _ = 2 ^ k * (a / 2 ^ k) + b := (Nat.mul_add_lt_is_or hb _).symm
    _ = a + b := by rw [← hsplit]

lemma toLEBytes_length (n v : Nat) : (toLEBytes n v).length = n := by
  induction n generalizing v with
  | zero => rfl
  | succ n ih => simp [toLEBytes, ih]

lemma toLEBytes_take (n m v : Nat) (h : n ≤ m) :
    (toLEBytes m v).take n = toLEBytes n v := by
  induction n generalizing m v with
  | zero => simp [toLEBytes]
  | succ n ih =>
    cases m with
    | zero => omega
    | succ m =>
      simp only [toLEBytes, List.take_succ_cons]
      rw [ih m (v / 256) (by omega)]

lemma foldrLE_toLEBytes (n : Nat) : ∀ v a : Nat,
    (toLEBytes n v).foldr (fun b acc => b + 256 * acc) a
      = v % 256 ^ n + 256 ^ n * a := by
  induction n with
  | zero => intro v a; simp [toLEBytes, Nat.mod_one]
  | succ n ih =>
    intro v a
    have hm : v % (256 * 256 ^ n) = v % 256 + 256 * (v / 256 % 256 ^ n) :=
      Nat.mod_mul
    simp only [toLEBytes, List.foldr_cons, ih (v / 256) a, pow_succ]
    have h256 : (256 : Nat) ^ n * 256 = 256 * 256 ^ n := by ring
    rw [h256, hm]
    ring

lemma foldrLE_replicate_zero (k : Nat) :
    (List.replicate k 0).foldr (fun b acc => b + 256 * acc) 0 = 0 := by
  induction k with
  | zero => rfl
  | succ k ih => simp [List.replicate_succ, ih]

/-- `fromLEBytes` of an exactly-`n`-byte little-endian rendering padded with
zeroes recovers the value modulo `256 ^ n`, for `n ≤ 8`. -/
lemma fromLEBytes_toLEBytes_append_zeroes (n v k : Nat) (hn : n ≤ 8) :
    fromLEBytes (toLEBytes n v ++ List.replicate k 0) = v % 256 ^ n := by
  unfold fromLEBytes
  rw [List.take_append_eq_append_take,
    List.take_of_length_le (by rw [toLEBytes_length]; exact hn),
    List.take_replicate, List.foldr_append, toLEBytes_length,
    foldrLE_replicate_zero, foldrLE_toLEBytes]
  ring

/-! ## Round-trip of the Ion 1.0 VarUInt codec -/

lemma writeU64Loop_ne_nil (fuel m s : Nat) (h : 0 < fuel) :
    writeU64Loop fuel m s ≠ [] := by
  match fuel, h with
  | fuel + 1, _ =>
    unfold writeU64Loop
    split <;> simp

lemma writeU64Loop_length (n : Nat) : ∀ fuel m s : Nat, m < 128 ^ (n + 1) →
    128 ^ n ≤ m → n + 1 ≤ fuel → (writeU64Loop fuel m s).length = n + 1 := by
  induction n with
  | zero =>
    intro fuel m s hhi _ hf
    match fuel, hf with
    | fuel + 1, _ =>
      unfold writeU64Loop
      have : m / 128 = 0 := by omega
      simp [this]
  | succ n ih =>
    intro fuel m s hhi hlo hf
    match fuel, hf with
    | fuel + 1, hf =>
      unfold writeU64Loop
      have hm : 128 ^ (n + 1) ≤ m := hlo
      have hpow : (1 : Nat) ≤ 128 ^ n := Nat.one_le_pow _ _ (by norm_num)
      have hne : ¬ m / 128 = 0 := by
        have : 128 ^ n * 128 ≤ m := by
          calc 128 ^ n * 128 = 128 ^ (n + 1) := by rw [pow_succ]
          _ ≤ m := hlo
        have := Nat.le_div_iff_mul_le (show 0 < 128 by norm_num) |>.2 this
        omega
      simp only [hne, if_false, List.length_cons]
      have h1 : m / 128 < 128 ^ (n + 1) := by
        apply (Nat.div_lt_iff_lt_mul (show 0 < 128 by norm_num)).2
        calc m < 128 ^ (n + 1 + 1) := hhi
        _ = 128 ^ (n + 1) * 128 := by rw [pow_succ]
      have h2 : 128 ^ n ≤ m / 128 := by
        apply (Nat.le_div_iff_mul_le (show 0 < 128 by norm_num)).2
        calc 128 ^ n * 128 = 128 ^ (n + 1) := by rw [pow_succ]
        _ ≤ m := hlo
      rw [ih fuel (m / 128) 0 h1 h2 (by omega)]

lemma writeU64Loop_getLast? : ∀ fuel m : Nat, 0 < fuel → m < 128 ^ fuel →
    (writeU64Loop fuel m 0).getLast?
      = some (m / 128 ^ ((writeU64Loop fuel m 0).length - 1)) := by
  intro fuel
  induction fuel with
  | zero => intro m h; omega
  | succ fuel ih =>
    intro m _ hm
    unfold writeU64Loop
    by_cases h0 : m / 128 = 0
    · simp [h0, Nat.zero_or, Nat.mod_eq_of_lt (show m < 128 by omega)]
    · simp only [h0, if_false]
      have hfuel : 0 < fuel := by
        rcases Nat.eq_zero_or_pos fuel with hz | hp
        · subst hz; simp [pow_one] at hm; omega
        · exact hp
      have hne := writeU64Loop_ne_nil fuel (m / 128) 0 hfuel
      have hdiv : m / 128 < 128 ^ fuel := by
        apply (Nat.div_lt_iff_lt_mul (show 0 < 128 by norm_num)).2
        calc m < 128 ^ (fuel + 1) := hm
        _ = 128 ^ fuel * 128 := by rw [pow_succ]
      obtain ⟨b, l, hl⟩ : ∃ b l, writeU64Loop fuel (m / 128) 0 = b :: l := by
        rcases hx : writeU64Loop fuel (m / 128) 0 with _ | ⟨b, l⟩
        · exact absurd hx hne
        · exact ⟨b, l, rfl⟩
      rw [hl, List.getLast?_cons_cons, ← hl, ih (m / 128) hfuel hdiv]
      have hlen : 1 ≤ (writeU64Loop fuel (m / 128) 0).length := by
        rw [hl]; simp
      congr 1
      rw [Nat.div_div_eq_div_mul]
      congr 1
      simp only [List.length_cons]
      rw [← pow_succ']
      congr 1
      omega

/-- Reading the reversed output of the seed-0 encoding loop consumes all of
its bytes (none carries the end flag) and accumulates `m` under the running
accumulator. -/
lemma readAux_writeU64Loop : ∀ fuel m acc cnt : Nat, ∀ tail : List Nat,
    m < 128 ^ fuel →
    acc * 128 ^ (writeU64Loop fuel m 0).length + m < 2 ^ 64 →
    VarUInt.readAux ((writeU64Loop fuel m 0).reverse ++ tail) acc cnt
      = VarUInt.readAux tail (acc * 128 ^ (writeU64Loop fuel m 0).length + m)
          (cnt + (writeU64Loop fuel m 0).length) := by
  intro fuel
  induction fuel with
  | zero =>
    intro m acc cnt tail hm _
    have : m = 0 := by
      have : (128 : Nat) ^ 0 = 1 := pow_zero 128
      omega
    subst this
    simp [writeU64Loop]
  | succ fuel ih =>
    intro m acc cnt tail hm hacc
    by_cases h0 : m / 128 = 0
    · have hmlt : m < 128 := by omega
      have hlist : writeU64Loop (fuel + 1) m 0 = [m] := by
        unfold writeU64Loop
        simp [h0, Nat.zero_or, Nat.mod_eq_of_lt hmlt]
      rw [hlist] at hacc ⊢
      simp only [List.length_cons, List.length_nil, pow_one] at hacc ⊢
      simp only [List.reverse_cons, List.reverse_nil, List.nil_append,
        List.cons_append]
      simp only [VarUInt.readAux]
      have hmod : acc * 128 % 2 ^ 64 = acc * 128 := Nat.mod_eq_of_lt (by omega)
      have hlor : acc * 128 ||| m % 128 = acc * 128 + m := by
        rw [Nat.mod_eq_of_lt hmlt]
        exact lor_eq_add_of_lt 7 _ _ (by omega) (by omega)
      rw [if_pos hmlt, hmod, hlor]
      norm_num
    · have hlist : writeU64Loop (fuel + 1) m 0
          = (m % 128) :: writeU64Loop fuel (m / 128) 0 := by
        simp only [writeU64Loop]
        rw [if_neg h0, Nat.zero_or]
      rw [hlist] at hacc ⊢
      simp only [List.length_cons] at hacc ⊢
      have hdiv : m / 128 < 128 ^ fuel := by
        apply (Nat.div_lt_iff_lt_mul (show 0 < 128 by norm_num)).2
        calc m < 128 ^ (fuel + 1) := hm
        _ = 128 ^ fuel * 128 := by rw [pow_succ]
      have hx : (acc * 128 ^ (writeU64Loop fuel (m / 128) 0).length + m / 128)
            * 128 + m % 128
          = acc * 128 ^ ((writeU64Loop fuel (m / 128) 0).length + 1) + m := by
        have hdm := Nat.div_add_mod m 128
        have hps : (128 : Nat) ^ ((writeU64Loop fuel (m / 128) 0).length + 1)
            = 128 ^ (writeU64Loop fuel (m / 128) 0).length * 128 := by
          rw [pow_succ]
        rw [hps]
        ring_nf
        ring_nf at hdm ⊢
        omega
      have hle : acc * 128 ^ (writeU64Loop fuel (m / 128) 0).length + m / 128
          ≤ (acc * 128 ^ (writeU64Loop fuel (m / 128) 0).length + m / 128) * 128 :=
        Nat.le_mul_of_pos_right _ (by norm_num)
      have hacc2 : acc * 128 ^ (writeU64Loop fuel (m / 128) 0).length + m / 128
          < 2 ^ 64 := by omega
      simp only [List.reverse_cons, List.append_assoc, List.singleton_append]
      rw [ih (m / 128) acc cnt ((m % 128) :: tail) hdiv hacc2]
      simp only [VarUInt.readAux]
      have hmlt : m % 128 < 128 := Nat.mod_lt m (by norm_num)
      have hmod : (acc * 128 ^ (writeU64Loop fuel (m / 128) 0).length + m / 128)
            * 128 % 2 ^ 64
          = (acc * 128 ^ (writeU64Loop fuel (m / 128) 0).length + m / 128)
            * 128 := by
        apply Nat.mod_eq_of_lt
        omega
      have hlor : (acc * 128 ^ (writeU64Loop fuel (m / 128) 0).length + m / 128)
            * 128 ||| m % 128 % 128
          = (acc * 128 ^ (writeU64Loop fuel (m / 128) 0).length + m / 128)
            * 128 + m % 128 := by
        rw [Nat.mod_mod]
        exact lor_eq_add_of_lt 7 _ _ (by omega) hmlt
      rw [if_pos hmlt, hmod, hlor, hx, Nat.add_assoc]

/-- Unfolding equation of `writeU64Loop` for positive fuel. -/
lemma writeU64Loop_succ (fuel m seed : Nat) :
    writeU64Loop (fuel + 1) m seed =
      if m / 128 = 0 then [seed ||| m % 128]
      else (seed ||| m % 128) :: writeU64Loop fuel (m / 128) 0 := by
  simp only [writeU64Loop]

/-- The Ion 1.0 VarUInt round-trip, for a value whose base-128 digit count is
`n + 1`. -/
lemma varuint10_roundtrip_of_range (n v : Nat) (hn : n ≤ 9) (hlo : 128 ^ n ≤ v)
    (hhi : v < 128 ^ (n + 1)) (hv : v < 2 ^ 64) :
    VarUInt.read (VarUInt.write_u64 v) = some ((VarUInt.write_u64 v).length, v) := by
  have hv0 : ¬ v = 0 := by
    have : (1 : Nat) ≤ 128 ^ n := Nat.one_le_pow _ _ (by norm_num)
    omega
  unfold VarUInt.write_u64
  rw [if_neg hv0]
  have h10 : (10 : Nat) = 9 + 1 := rfl
  cases n with
  | zero =>
    have hvlt : v < 128 := by
      have : (128 : Nat) ^ (0 + 1) = 128 := by norm_num
      omega
    have hlist : writeU64Loop 10 v 128 = [128 + v] := by
      rw [h10, writeU64Loop_succ, if_pos (by omega : v / 128 = 0),
        Nat.mod_eq_of_lt hvlt]
      rw [lor_eq_add_of_lt 7 128 v (by norm_num) (by omega)]
    rw [hlist]
    have hread : VarUInt.readAux [128 + v] 0 0 = some (1, v) := by
      simp only [VarUInt.readAux]
      rw [if_neg (by omega : ¬ 128 + v < 128)]
      have hm : 0 * 128 % 2 ^ 64 ||| (128 + v) % 128 = v := by
        rw [Nat.zero_mul, Nat.zero_mod, Nat.zero_or, Nat.add_mod_left,
          Nat.mod_eq_of_lt hvlt]
      rw [hm]
    simp only [List.reverse_cons, List.reverse_nil, List.nil_append]
    simp only [VarUInt.read, hread]
    rw [if_neg (by omega)]
    simp
  | succ n =>
    have hn8 : n ≤ 8 := by omega
    have h128le : 128 ≤ v := by
      have h1 : (128 : Nat) ^ 1 ≤ 128 ^ (n + 1) :=
        Nat.pow_le_pow_right (by norm_num) (by omega)
      have h2 : (128 : Nat) ^ 1 = 128 := by norm_num
      omega
    have hdne : ¬ v / 128 = 0 := by omega
    have hlist : writeU64Loop 10 v 128
        = (128 + v % 128) :: writeU64Loop 9 (v / 128) 0 := by
      rw [h10, writeU64Loop_succ, if_neg hdne,
        lor_eq_add_of_lt 7 128 (v % 128) (by norm_num)
          (Nat.mod_lt v (by norm_num))]
    rw [hlist]
    have hdivlt9 : v / 128 < 128 ^ 9 := by
      have h9 : (128 : Nat) ^ 9 = 2 ^ 63 := by norm_num
      have h64 : (2 : Nat) ^ 64 = 18446744073709551616 := by norm_num
      have h63 : (2 : Nat) ^ 63 = 9223372036854775808 := by norm_num
      omega
    have hdivlo : 128 ^ n ≤ v / 128 := by
      apply (Nat.le_div_iff_mul_le (show 0 < 128 by norm_num)).2
      calc 128 ^ n * 128 = 128 ^ (n + 1) := by rw [pow_succ]
      _ ≤ v := hlo
    have hdivhi : v / 128 < 128 ^ (n + 1) := by
      apply (Nat.div_lt_iff_lt_mul (show 0 < 128 by norm_num)).2
      calc v < 128 ^ (n + 1 + 1) := hhi
      _ = 128 ^ (n + 1) * 128 := by rw [pow_succ]
    have hlen9 : (writeU64Loop 9 (v / 128) 0).length = n + 1 :=
      writeU64Loop_length n 9 (v / 128) 0 hdivhi hdivlo (by omega)
    have hreadpre := readAux_writeU64Loop 9 (v / 128) 0 0 [128 + v % 128]
      hdivlt9 (by simp only [Nat.zero_mul, Nat.zero_add]; omega)
    rw [hlen9] at hreadpre
    simp only [Nat.zero_mul, Nat.zero_add] at hreadpre
    have hstep : VarUInt.readAux [128 + v % 128] (v / 128) (n + 1)
        = some (n + 2, v) := by
      simp only [VarUInt.readAux]
      rw [if_neg (by omega : ¬ 128 + v % 128 < 128)]
      have hmul : v / 128 * 128 ≤ v := Nat.div_mul_le_self v 128
      have hm : v / 128 * 128 % 2 ^ 64 ||| (128 + v % 128) % 128 = v := by
        rw [Nat.add_mod_left, Nat.mod_mod,
          Nat.mod_eq_of_lt (show v / 128 * 128 < 2 ^ 64 by omega),
          lor_eq_add_of_lt 7 (v / 128 * 128) (v % 128) (Nat.mul_mod_left _ _)
            (Nat.mod_lt v (by norm_num))]
        omega
      rw [hm]
    have hread : VarUInt.readAux
        ((128 + v % 128) :: writeU64Loop 9 (v / 128) 0).reverse 0 0
        = some (n + 2, v) := by
      rw [List.reverse_cons, hreadpre, hstep]
    simp only [VarUInt.read, hread]
    have hhead : (((128 + v % 128) :: writeU64Loop 9 (v / 128) 0).reverse).headD 0
        = v / 128 ^ (n + 1) := by
      rw [List.reverse_cons, List.headD_eq_head?_getD, List.head?_append]
      have hne := writeU64Loop_ne_nil 9 (v / 128) 0 (by norm_num)
      have hrevne : (writeU64Loop 9 (v / 128) 0).reverse ≠ [] := by
        simpa using hne
      rw [← List.getLast?_eq_head?_reverse,
        writeU64Loop_getLast? 9 (v / 128) (by norm_num) hdivlt9, hlen9]
      simp only [Option.or_some, Option.getD_some, Nat.add_sub_cancel]
      rw [Nat.div_div_eq_div_mul, ← pow_succ']
    by_cases hcase : n + 2 = 10
    · have hn8eq : n = 8 := by omega
      subst hn8eq
      have hvlo : 2 ^ 63 ≤ v := by
        have : (128 : Nat) ^ 9 = 2 ^ 63 := by norm_num
        omega
      have hheadval : (((128 + v % 128) :: writeU64Loop 9 (v / 128) 0).reverse).headD 0
          = 1 := by
        rw [hhead]
        have h9 : (128 : Nat) ^ 9 = 2 ^ 63 := by norm_num
        have h63 : (2 : Nat) ^ 63 = 9223372036854775808 := by norm_num
        have h64 : (2 : Nat) ^ 64 = 18446744073709551616 := by norm_num
        omega
      rw [if_neg (by rw [hheadval]; omega)]
      simp [hlen9]
    · rw [if_neg (by omega)]
      simp [hlen9]

/-- Every positive `u64` has a base-128 digit count between 1 and 10. -/
lemma exists_digit_range (v : Nat) (h1 : 1 ≤ v) (h2 : v < 2 ^ 64) :
    ∃ n, n ≤ 9 ∧ 128 ^ n ≤ v ∧ v < 128 ^ (n + 1) := by
  by_cases c0 : v < 128 ^ 1
  · exact ⟨0, by omega, by omega, by omega⟩
  by_cases c1 : v < 128 ^ 2
  · exact ⟨1, by omega, by omega, by omega⟩
  by_cases c2 : v < 128 ^ 3
  · exact ⟨2, by omega, by omega, by omega⟩
  by_cases c3 : v < 128 ^ 4
  · exact ⟨3, by omega, by omega, by omega⟩
  by_cases c4 : v < 128 ^ 5
  · exact ⟨4, by omega, by omega, by omega⟩
  by_cases c5 : v < 128 ^ 6
  · exact ⟨5, by omega, by omega, by omega⟩
  by_cases c6 : v < 128 ^ 7
  · exact ⟨6, by omega, by omega, by omega⟩
  by_cases c7 : v < 128 ^ 8
  · exact ⟨7, by omega, by omega, by omega⟩
  by_cases c8 : v < 128 ^ 9
  · exact ⟨8, by omega, by omega, by omega⟩
  exact ⟨9, by omega, by omega, by omega⟩

/-- The Ion 1.0 encoding of a value whose base-128 digit count is `n + 1` is
`n + 1` bytes long. -/
lemma write_u64_length_of_range (n v : Nat) (hn : n ≤ 9) (hlo : 128 ^ n ≤ v)
    (hhi : v < 128 ^ (n + 1)) : (VarUInt.write_u64 v).length = n + 1 := by
  have hv0 : ¬ v = 0 := by
    have : (1 : Nat) ≤ 128 ^ n := Nat.one_le_pow _ _ (by norm_num)
    omega
  unfold VarUInt.write_u64
  rw [if_neg hv0, List.length_reverse]
  exact writeU64Loop_length n 10 v 128 hhi hlo (by omega)

/-! ## Round-trip of the Ion 1.1 VarUInt codec -/

/-- Decoding an `n`-byte Ion 1.1 encoding `E = v * 2^n + 2^(n-1)` (the value
shifted over `n` continuation-flag bits, with the end flag at bit `n - 1`)
recovers `(n, v)`, for `1 ≤ n ≤ 8`. -/
lemma decode_var_uint_toLEBytes (n v E : Nat) (hn1 : 1 ≤ n) (hn8 : n ≤ 8)
    (hE : E = v * 2 ^ n + 2 ^ (n - 1)) (hElt : E < 256 ^ n)
    (htz : u8_trailing_zeros (E % 256) = n - 1) :
    decode_var_uint (toLEBytes n E) = some (n, v) := by
  have h256n : (256 : Nat) ^ n = 2 ^ (8 * n) := by
    calc (256 : Nat) ^ n = (2 ^ 8) ^ n := by norm_num
    _ = 2 ^ (8 * n) := by rw [← pow_mul]
  have hb1ne : ¬ E % 256 = 0 := by
    intro h
    rw [h] at htz
    have : u8_trailing_zeros 0 = 8 := by decide
    omega
  have hb1 : (toLEBytes n E ++ List.replicate (10 - n) 0).headD 0 = E % 256 := by
    cases n with
    | zero => omega
    | succ m => simp [toLEBytes]
  have hdivE : E / 2 ^ n = v := by
    rw [hE, Nat.add_comm, Nat.add_mul_div_right _ _ (Nat.pos_pow_of_pos n (by norm_num)),
      Nat.div_eq_of_lt (Nat.pow_lt_pow_right (by norm_num) (by omega))]
    omega
  have hEsmall : E < 2 ^ (8 * n) := by rw [← h256n]; exact hElt
  simp only [decode_var_uint]
  rw [toLEBytes_length]
  rw [if_neg (show ¬ 10 ≤ n by omega)]
  rw [hb1]
  rw [if_neg (show ¬ (E % 256 = 0 ∧ _) from fun h => hb1ne h.1)]
  rw [if_neg (show ¬ (E % 256 = 0 ∧ _) from fun h => hb1ne h.1)]
  rw [if_neg hb1ne]
  rw [htz]
  have hsucc : n - 1 + 1 = n := by omega
  rw [hsucc]
  rw [fromLEBytes_toLEBytes_append_zeroes n E (10 - n) hn8]
  rw [h256n, Nat.mod_eq_of_lt hEsmall]
  by_cases hm : 8 * n < 64
  · rw [if_pos hm, Nat.and_pow_two_sub_one_eq_mod, Nat.mod_eq_of_lt hEsmall,
      Nat.shiftRight_eq_div_pow, hdivE]
  · have hn8eq : n = 8 := by omega
    subst hn8eq
    rw [if_neg hm, Nat.and_pow_two_sub_one_eq_mod, Nat.mod_eq_of_lt (by omega),
      Nat.shiftRight_eq_div_pow, hdivE]

/-- `x &&& 0b11` is `x % 4`. -/
lemma and_three (x : Nat) : x &&& 3 = x % 4 := by
  simpa using Nat.and_pow_two_sub_one_eq_mod x 2

/-- `x &&& 0b111111` is `x % 64`. -/
lemma and_sixtythree (x : Nat) : x &&& 63 = x % 64 := by
  simpa using Nat.and_pow_two_sub_one_eq_mod x 6

/-- `BYTES_NEEDED_CACHE (u64_leading_zeros v) = 3` on the 3-byte band. -/
lemma bytes_needed_eq_3 (v : Nat) (hlo : 2 ^ 14 ≤ v) (hhi : v < 2 ^ 21) :
    BYTES_NEEDED_CACHE (u64_leading_zeros v) = 3 := by
  by_cases h20 : 2 ^ 20 ≤ v
  · have hlz : u64_leading_zeros v = 43 := by
      unfold u64_leading_zeros
      repeat first | rw [if_pos (by omega)] | rw [if_neg (by omega)]
    rw [hlz]
    decide
  ·
    by_cases h19 : 2 ^ 19 ≤ v
    · have hlz : u64_leading_zeros v = 44 := by
        unfold u64_leading_zeros
        repeat first | rw [if_pos (by omega)] | rw [if_neg (by omega)]
      rw [hlz]
      decide
    ·
      by_cases h18 : 2 ^ 18 ≤ v
      · have hlz : u64_leading_zeros v = 45 := by
          unfold u64_leading_zeros
          repeat first | rw [if_pos (by omega)] | rw [if_neg (by omega)]
        rw [hlz]
        decide
      ·
        by_cases h17 : 2 ^ 17 ≤ v
        · have hlz : u64_leading_zeros v = 46 := by
            unfold u64_leading_zeros
            repeat first | rw [if_pos (by omega)] | rw [if_neg (by omega)]
          rw [hlz]
          decide
        ·
          by_cases h16 : 2 ^ 16 ≤ v
          · have hlz : u64_leading_zeros v = 47 := by
              unfold u64_leading_zeros
              repeat first | rw [if_pos (by omega)] | rw [if_neg (by omega)]
            rw [hlz]
            decide
          ·
            by_cases h15 : 2 ^ 15 ≤ v
            · have hlz : u64_leading_zeros v = 48 := by
                unfold u64_leading_zeros
                repeat first | rw [if_pos (by omega)] | rw [if_neg (by omega)]
              rw [hlz]
              decide
            ·
              have hlz : u64_leading_zeros v = 49 := by
                unfold u64_leading_zeros
                repeat first | rw [if_pos (by omega)] | rw [if_neg (by omega)]
              rw [hlz]
              decide

/-- `BYTES_NEEDED_CACHE (u64_leading_zeros v) = 4` on the 4-byte band. -/
lemma bytes_needed_eq_4 (v : Nat) (hlo : 2 ^ 21 ≤ v) (hhi : v < 2 ^ 28) :
    BYTES_NEEDED_CACHE (u64_leading_zeros v) = 4 := by
  by_cases h27 : 2 ^ 27 ≤ v
  · have hlz : u64_leading_zeros v = 36 := by
      unfold u64_leading_zeros
      repeat first | rw [if_pos (by omega)] | rw [if_neg (by omega)]
    rw [hlz]
    decide
  ·
    by_cases h26 : 2 ^ 26 ≤ v
    · have hlz : u64_leading_zeros v = 37 := by
        unfold u64_leading_zeros
        repeat first | rw [if_pos (by omega)] | rw [if_neg (by omega)]
      rw [hlz]
      decide
    ·
      by_cases h25 : 2 ^ 25 ≤ v
      · have hlz : u64_leading_zeros v = 38 := by
          unfold u64_leading_zeros
          repeat first | rw [if_pos (by omega)] | rw [if_neg (by omega)]
        rw [hlz]
        decide
      ·
        by_cases h24 : 2 ^ 24 ≤ v
        · have hlz : u64_leading_zeros v = 39 := by
            unfold u64_leading_zeros
            repeat first | rw [if_pos (by omega)] | rw [if_neg (by omega)]
          rw [hlz]
          decide
        ·
          by_cases h23 : 2 ^ 23 ≤ v
          · have hlz : u64_leading_zeros v = 40 := by
              unfold u64_leading_zeros
              repeat first | rw [if_pos (by omega)] | rw [if_neg (by omega)]
            rw [hlz]
            decide
          ·
            by_cases h22 : 2 ^ 22 ≤ v
            · have hlz : u64_leading_zeros v = 41 := by
                unfold u64_leading_zeros
                repeat first | rw [if_pos (by omega)] | rw [if_neg (by omega)]
              rw [hlz]
              decide
            ·
              have hlz : u64_leading_zeros v = 42 := by
                unfold u64_leading_zeros
                repeat first | rw [if_pos (by omega)] | rw [if_neg (by omega)]
              rw [hlz]
              decide

/-- `BYTES_NEEDED_CACHE (u64_leading_zeros v) = 5` on the 5-byte band. -/
lemma bytes_needed_eq_5 (v : Nat) (hlo : 2 ^ 28 ≤ v) (hhi : v < 2 ^ 35) :
    BYTES_NEEDED_CACHE (u64_leading_zeros v) = 5 := by
  by_cases h34 : 2 ^ 34 ≤ v
  · have hlz : u64_leading_zeros v = 29 := by
      unfold u64_leading_zeros
      repeat first | rw [if_pos (by omega)] | rw [if_neg (by omega)]
    rw [hlz]
    decide
  ·
    by_cases h33 : 2 ^ 33 ≤ v
    · have hlz : u64_leading_zeros v = 30 := by
        unfold u64_leading_zeros
        repeat first | rw [if_pos (by omega)] | rw [if_neg (by omega)]
      rw [hlz]
      decide
    ·
      by_cases h32 : 2 ^ 32 ≤ v
      · have hlz : u64_leading_zeros v = 31 := by
          unfold u64_leading_zeros
          repeat first | rw [if_pos (by omega)] | rw [if_neg (by omega)]
        rw [hlz]
        decide
      ·
        by_cases h31 : 2 ^ 31 ≤ v
        · have hlz : u64_leading_zeros v = 32 := by
            unfold u64_leading_zeros
            repeat first | rw [if_pos (by omega)] | rw [if_neg (by omega)]
          rw [hlz]
          decide
        ·
          by_cases h30 : 2 ^ 30 ≤ v
          · have hlz : u64_leading_zeros v = 33 := by
              unfold u64_leading_zeros
              repeat first | rw [if_pos (by omega)] | rw [if_neg (by omega)]
            rw [hlz]
            decide
          ·
            by_cases h29 : 2 ^ 29 ≤ v
            · have hlz : u64_leading_zeros v = 34 := by
                unfold u64_leading_zeros
                repeat first | rw [if_pos (by omega)] | rw [if_neg (by omega)]
              rw [hlz]
              decide
            ·
              have hlz : u64_leading_zeros v = 35 := by
                unfold u64_leading_zeros
                repeat first | rw [if_pos (by omega)] | rw [if_neg (by omega)]
              rw [hlz]
              decide

/-- `BYTES_NEEDED_CACHE (u64_leading_zeros v) = 6` on the 6-byte band. -/
lemma bytes_needed_eq_6 (v : Nat) (hlo : 2 ^ 35 ≤ v) (hhi : v < 2 ^ 42) :
    BYTES_NEEDED_CACHE (u64_leading_zeros v) = 6 := by
  by_cases h41 : 2 ^ 41 ≤ v
  · have hlz : u64_leading_zeros v = 22 := by
      unfold u64_leading_zeros
      repeat first | rw [if_pos (by omega)] | rw [if_neg (by omega)]
    rw [hlz]
    decide
  ·
    by_cases h40 : 2 ^ 40 ≤ v
    · have hlz : u64_leading_zeros v = 23 := by
        unfold u64_leading_zeros
        repeat first | rw [if_pos (by omega)] | rw [if_neg (by omega)]
      rw [hlz]
      decide
    ·
      by_cases h39 : 2 ^ 39 ≤ v
      · have hlz : u64_leading_zeros v = 24 := by
          unfold u64_leading_zeros
          repeat first | rw [if_pos (by omega)] | rw [if_neg (by omega)]
        rw [hlz]
        decide
      ·
        by_cases h38 : 2 ^ 38 ≤ v
        · have hlz : u64_leading_zeros v = 25 := by
            unfold u64_leading_zeros
            repeat first | rw [if_pos (by omega)] | rw [if_neg (by omega)]
          rw [hlz]
          decide
        ·
          by_cases h37 : 2 ^ 37 ≤ v
          · have hlz : u64_leading_zeros v = 26 := by
              unfold u64_leading_zeros
              repeat first | rw [if_pos (by omega)] | rw [if_neg (by omega)]
            rw [hlz]
            decide
          ·
            by_cases h36 : 2 ^ 36 ≤ v
            · have hlz : u64_leading_zeros v = 27 := by
                unfold u64_leading_zeros
                repeat first | rw [if_pos (by omega)] | rw [if_neg (by omega)]
              rw [hlz]
              decide
            ·
              have hlz : u64_leading_zeros v = 28 := by
                unfold u64_leading_zeros
                repeat first | rw [if_pos (by omega)] | rw [if_neg (by omega)]
              rw [hlz]
              decide

/-- `BYTES_NEEDED_CACHE (u64_leading_zeros v) = 7` on the 7-byte band. -/
lemma bytes_needed_eq_7 (v : Nat) (hlo : 2 ^ 42 ≤ v) (hhi : v < 2 ^ 49) :
    BYTES_NEEDED_CACHE (u64_leading_zeros v) = 7 := by
  by_cases h48 : 2 ^ 48 ≤ v
  · have hlz : u64_leading_zeros v = 15 := by
      unfold u64_leading_zeros
      repeat first | rw [if_pos (by omega)] | rw [if_neg (by omega)]
    rw [hlz]
    decide
  ·
    by_cases h47 : 2 ^ 47 ≤ v
    · have hlz : u64_leading_zeros v = 16 := by
        unfold u64_leading_zeros
        repeat first | rw [if_pos (by omega)] | rw [if_neg (by omega)]
      rw [hlz]
      decide
    ·
      by_cases h46 : 2 ^ 46 ≤ v
      · have hlz : u64_leading_zeros v = 17 := by
          unfold u64_leading_zeros
          repeat first | rw [if_pos (by omega)] | rw [if_neg (by omega)]
        rw [hlz]
        decide
      ·
        by_cases h45 : 2 ^ 45 ≤ v
        · have hlz : u64_leading_zeros v = 18 := by
            unfold u64_leading_zeros
            repeat first | rw [if_pos (by omega)] | rw [if_neg (by omega)]
          rw [hlz]
          decide
        ·
          by_cases h44 : 2 ^ 44 ≤ v
          · have hlz : u64_leading_zeros v = 19 := by
              unfold u64_leading_zeros
              repeat first | rw [if_pos (by omega)] | rw [if_neg (by omega)]
            rw [hlz]
            decide
          ·
            by_cases h43 : 2 ^ 43 ≤ v
            · have hlz : u64_leading_zeros v = 20 := by
                unfold u64_leading_zeros
                repeat first | rw [if_pos (by omega)] | rw [if_neg (by omega)]
              rw [hlz]
              decide
            ·
              have hlz : u64_leading_zeros v = 21 := by
                unfold u64_leading_zeros
                repeat first | rw [if_pos (by omega)] | rw [if_neg (by omega)]
              rw [hlz]
              decide

/-- `BYTES_NEEDED_CACHE (u64_leading_zeros v) = 8` on the 8-byte band. -/
lemma bytes_needed_eq_8 (v : Nat) (hlo : 2 ^ 49 ≤ v) (hhi : v < 2 ^ 56) :
    BYTES_NEEDED_CACHE (u64_leading_zeros v) = 8 := by
  by_cases h55 : 2 ^ 55 ≤ v
  · have hlz : u64_leading_zeros v = 8 := by
      unfold u64_leading_zeros
      repeat first | rw [if_pos (by omega)] | rw [if_neg (by omega)]
    rw [hlz]
    decide
  ·
    by_cases h54 : 2 ^ 54 ≤ v
    · have hlz : u64_leading_zeros v = 9 := by
        unfold u64_leading_zeros
        repeat first | rw [if_pos (by omega)] | rw [if_neg (by omega)]
      rw [hlz]
      decide
    ·
      by_cases h53 : 2 ^ 53 ≤ v
      · have hlz : u64_leading_zeros v = 10 := by
          unfold u64_leading_zeros
          repeat first | rw [if_pos (by omega)] | rw [if_neg (by omega)]
        rw [hlz]
        decide
      ·
        by_cases h52 : 2 ^ 52 ≤ v
        · have hlz : u64_leading_zeros v = 11 := by
            unfold u64_leading_zeros
            repeat first | rw [if_pos (by omega)] | rw [if_neg (by omega)]
          rw [hlz]
          decide
        ·
          by_cases h51 : 2 ^ 51 ≤ v
          · have hlz : u64_leading_zeros v = 12 := by
              unfold u64_leading_zeros
              repeat first | rw [if_pos (by omega)] | rw [if_neg (by omega)]
            rw [hlz]
            decide
          ·
            by_cases h50 : 2 ^ 50 ≤ v
            · have hlz : u64_leading_zeros v = 13 := by
                unfold u64_leading_zeros
                repeat first | rw [if_pos (by omega)] | rw [if_neg (by omega)]
              rw [hlz]
              decide
            ·
              have hlz : u64_leading_zeros v = 14 := by
                unfold u64_leading_zeros
                repeat first | rw [if_pos (by omega)] | rw [if_neg (by omega)]
              rw [hlz]
              decide

/-- `BYTES_NEEDED_CACHE (u64_leading_zeros v) = 9` on the 9-byte band. -/
lemma bytes_needed_eq_9 (v : Nat) (hlo : 2 ^ 56 ≤ v) (hhi : v < 2 ^ 63) :
    BYTES_NEEDED_CACHE (u64_leading_zeros v) = 9 := by
  by_cases h62 : 2 ^ 62 ≤ v
  · have hlz : u64_leading_zeros v = 1 := by
      unfold u64_leading_zeros
      repeat first | rw [if_pos (by omega)] | rw [if_neg (by omega)]
    rw [hlz]
    decide
  ·
    by_cases h61 : 2 ^ 61 ≤ v
    · have hlz : u64_leading_zeros v = 2 := by
        unfold u64_leading_zeros
        repeat first | rw [if_pos (by omega)] | rw [if_neg (by omega)]
      rw [hlz]
      decide
    ·
      by_cases h60 : 2 ^ 60 ≤ v
      · have hlz : u64_leading_zeros v = 3 := by
          unfold u64_leading_zeros
          repeat first | rw [if_pos (by omega)] | rw [if_neg (by omega)]
        rw [hlz]
        decide
      ·
        by_cases h59 : 2 ^ 59 ≤ v
        · have hlz : u64_leading_zeros v = 4 := by
            unfold u64_leading_zeros
            repeat first | rw [if_pos (by omega)] | rw [if_neg (by omega)]
          rw [hlz]
          decide
        ·
          by_cases h58 : 2 ^ 58 ≤ v
          · have hlz : u64_leading_zeros v = 5 := by
              unfold u64_leading_zeros
              repeat first | rw [if_pos (by omega)] | rw [if_neg (by omega)]
            rw [hlz]
            decide
          ·
            by_cases h57 : 2 ^ 57 ≤ v
            · have hlz : u64_leading_zeros v = 6 := by
                unfold u64_leading_zeros
                repeat first | rw [if_pos (by omega)] | rw [if_neg (by omega)]
              rw [hlz]
              decide
            ·
              have hlz : u64_leading_zeros v = 7 := by
                unfold u64_leading_zeros
                repeat first | rw [if_pos (by omega)] | rw [if_neg (by omega)]
              rw [hlz]
              decide

/-- `BYTES_NEEDED_CACHE (u64_leading_zeros v) = 10` on the 10-byte band. -/
lemma bytes_needed_eq_10 (v : Nat) (hlo : 2 ^ 63 ≤ v) (hhi : v < 2 ^ 64) :
    BYTES_NEEDED_CACHE (u64_leading_zeros v) = 10 := by
  have hlz : u64_leading_zeros v = 0 := by
    unfold u64_leading_zeros
    repeat first | rw [if_pos (by omega)] | rw [if_neg (by omega)]
  rw [hlz]
  decide

/-- The Ion 1.1 round-trip and encoded size for values that encode in 1 to 8
bytes (base-128 digit count `n`). -/
lemma varuint11_roundtrip_small (n v : Nat) (hn1 : 1 ≤ n) (hn8 : n ≤ 8)
    (hlo : 128 ^ (n - 1) ≤ v) (hhi : v < 128 ^ n) :
    decode_var_uint (encode_var_uint v) = some (n, v)
    ∧ (encode_var_uint v).length = n := by
  have hElt : v * 2 ^ n + 2 ^ (n - 1) < 256 ^ n := by
    interval_cases n <;> omega
  have htz : u8_trailing_zeros ((v * 2 ^ n + 2 ^ (n - 1)) % 256) = n - 1 := by
    interval_cases n <;>
      (unfold u8_trailing_zeros
       repeat first | rw [if_pos (by omega)] | rw [if_neg (by omega)])
  have henc : encode_var_uint v = toLEBytes n (v * 2 ^ n + 2 ^ (n - 1)) := by
    interval_cases n
    · unfold encode_var_uint
      rw [if_pos (by omega : v < 0x80)]
      simp only [toLEBytes]
      norm_num
      omega
    · unfold encode_var_uint
      rw [if_neg (by omega), if_pos (by omega : v < 0x4000)]
      congr 1
      omega
    · simp only [encode_var_uint]
      rw [if_neg (by omega), if_neg (by omega), bytes_needed_eq_3 v (by omega) (by omega),
        if_pos (by norm_num : (3 : Nat) ≤ 8), toLEBytes_take 3 8 _ (by norm_num)]
      congr 1
      rw [Nat.shiftLeft_eq, Nat.shiftLeft_eq, Nat.mod_eq_of_lt (by omega),
        lor_eq_add_of_lt 3 _ _ (by omega) (by omega)]
      omega
    · simp only [encode_var_uint]
      rw [if_neg (by omega), if_neg (by omega), bytes_needed_eq_4 v (by omega) (by omega),
        if_pos (by norm_num : (4 : Nat) ≤ 8), toLEBytes_take 4 8 _ (by norm_num)]
      congr 1
      rw [Nat.shiftLeft_eq, Nat.shiftLeft_eq, Nat.mod_eq_of_lt (by omega),
        lor_eq_add_of_lt 4 _ _ (by omega) (by omega)]
      omega
    · simp only [encode_var_uint]
      rw [if_neg (by omega), if_neg (by omega), bytes_needed_eq_5 v (by omega) (by omega),
        if_pos (by norm_num : (5 : Nat) ≤ 8), toLEBytes_take 5 8 _ (by norm_num)]
      congr 1
      rw [Nat.shiftLeft_eq, Nat.shiftLeft_eq, Nat.mod_eq_of_lt (by omega),
        lor_eq_add_of_lt 5 _ _ (by omega) (by omega)]
      omega
    · simp only [encode_var_uint]
      rw [if_neg (by omega), if_neg (by omega), bytes_needed_eq_6 v (by omega) (by omega),
        if_pos (by norm_num : (6 : Nat) ≤ 8), toLEBytes_take 6 8 _ (by norm_num)]
      congr 1
      rw [Nat.shiftLeft_eq, Nat.shiftLeft_eq, Nat.mod_eq_of_lt (by omega),
        lor_eq_add_of_lt 6 _ _ (by omega) (by omega)]
      omega
    · simp only [encode_var_uint]
      rw [if_neg (by omega), if_neg (by omega), bytes_needed_eq_7 v (by omega) (by omega),
        if_pos (by norm_num : (7 : Nat) ≤ 8), toLEBytes_take 7 8 _ (by norm_num)]
      congr 1
      rw [Nat.shiftLeft_eq, Nat.shiftLeft_eq, Nat.mod_eq_of_lt (by omega),
        lor_eq_add_of_lt 7 _ _ (by omega) (by omega)]
      omega
    · simp only [encode_var_uint]
      rw [if_neg (by omega), if_neg (by omega), bytes_needed_eq_8 v (by omega) (by omega),
        if_pos (by norm_num : (8 : Nat) ≤ 8), toLEBytes_take 8 8 _ (by norm_num)]
      congr 1
      rw [Nat.shiftLeft_eq, Nat.shiftLeft_eq, Nat.mod_eq_of_lt (by omega),
        lor_eq_add_of_lt 8 _ _ (by omega) (by omega)]
      omega
  refine ⟨?_, ?_⟩
  · rw [henc]
    exact decode_var_uint_toLEBytes n v _ hn1 hn8 rfl hElt htz
  · rw [henc, toLEBytes_length]

/-- The Ion 1.1 round-trip and encoded size for values that encode in 9
bytes. -/
lemma varuint11_roundtrip_nine (v : Nat) (hlo : 2 ^ 56 ≤ v) (hhi : v < 2 ^ 63) :
    decode_var_uint (encode_var_uint v) = some (9, v)
    ∧ (encode_var_uint v).length = 9 := by
  have henc : encode_var_uint v = 0 :: toLEBytes 8 (v * 2 + 1) := by
    simp only [encode_var_uint]
    rw [if_neg (by omega), if_neg (by omega), bytes_needed_eq_9 v (by omega) (by omega),
      if_neg (by norm_num), if_pos rfl]
    rw [show (v <<< 1) % 2 ^ 64 + 1 = v * 2 + 1 by rw [Nat.shiftLeft_eq]; omega]
  rw [henc]
  refine ⟨?_, by simp [toLEBytes_length]⟩
  simp only [decode_var_uint]
  rw [List.length_cons, toLEBytes_length]
  rw [if_neg (show ¬ 10 ≤ 8 + 1 by omega)]
  rw [show (0 :: toLEBytes 8 (v * 2 + 1)) ++ List.replicate (10 - (8 + 1)) 0
        = 0 :: (toLEBytes 8 (v * 2 + 1) ++ List.replicate 1 0) by simp]
  rw [show ((0 : Nat) :: (toLEBytes 8 (v * 2 + 1) ++ List.replicate 1 0)).headD 0
        = 0 from rfl]
  rw [show (((0 : Nat) :: (toLEBytes 8 (v * 2 + 1) ++ List.replicate 1 0)).drop 1).headD 0
        = (v * 2 + 1) % 256 by simp [toLEBytes]]
  rw [if_neg (show ¬ ((0 : Nat) = 0 ∧ (v * 2 + 1) % 256 &&& 3 = 0) from fun h => by
        rw [and_three] at h
        omega)]
  rw [if_neg (show ¬ ((0 : Nat) = 0 ∧ (v * 2 + 1) % 256 &&& 3 = 2) from fun h => by
        rw [and_three] at h
        omega)]
  rw [if_pos (show (0 : Nat) = 0 from rfl)]
  rw [show ((0 : Nat) :: (toLEBytes 8 (v * 2 + 1) ++ List.replicate 1 0)).drop 1
        = toLEBytes 8 (v * 2 + 1) ++ List.replicate 1 0 from rfl]
  rw [fromLEBytes_toLEBytes_append_zeroes 8 (v * 2 + 1) 1 (by norm_num)]
  rw [Nat.shiftRight_eq_div_pow]
  congr 2
  omega

/-- The Ion 1.1 round-trip and encoded size for values that encode in 10
bytes. -/
lemma varuint11_roundtrip_ten (v : Nat) (hlo : 2 ^ 63 ≤ v) (hhi : v < 2 ^ 64) :
    decode_var_uint (encode_var_uint v) = some (10, v)
    ∧ (encode_var_uint v).length = 10 := by
  have henc : encode_var_uint v
      = 0 :: (v % 64 * 4 + 2) :: toLEBytes 8 (v / 64) := by
    simp only [encode_var_uint]
    rw [if_neg (by omega), if_neg (by omega), bytes_needed_eq_10 v (by omega) (by omega),
      if_neg (by norm_num), if_neg (by norm_num)]
    rw [show ((v &&& 63) <<< 2) % 256 ||| 2 = v % 64 * 4 + 2 by
          rw [and_sixtythree, Nat.shiftLeft_eq, Nat.mod_eq_of_lt (by omega),
            lor_eq_add_of_lt 2 _ _ (by omega) (by omega)],
      show v >>> 6 = v / 64 by rw [Nat.shiftRight_eq_div_pow]]
  rw [henc]
  refine ⟨?_, by simp [toLEBytes_length]⟩
  have hfrom : fromLEBytes (toLEBytes 8 (v / 64)) = v / 64 := by
    have h := fromLEBytes_toLEBytes_append_zeroes 8 (v / 64) 0 (le_refl 8)
    simp only [List.replicate_zero, List.append_nil] at h
    rw [h]
    omega
  simp only [decode_var_uint]
  rw [List.length_cons, List.length_cons, toLEBytes_length]
  rw [if_pos (show 10 ≤ 8 + 1 + 1 by omega)]
  rw [show ((0 : Nat) :: (v % 64 * 4 + 2) :: toLEBytes 8 (v / 64)).headD 0
        = 0 from rfl]
  rw [show (((0 : Nat) :: (v % 64 * 4 + 2) :: toLEBytes 8 (v / 64)).drop 1).headD 0
        = v % 64 * 4 + 2 by simp [toLEBytes]]
  rw [if_neg (show ¬ ((0 : Nat) = 0 ∧ (v % 64 * 4 + 2) &&& 3 = 0) from fun h => by
        rw [and_three] at h
        omega)]
  rw [if_pos (show ((0 : Nat) = 0 ∧ (v % 64 * 4 + 2) &&& 3 = 2) from
        ⟨rfl, by rw [and_three]; omega⟩)]
  rw [show ((0 : Nat) :: (v % 64 * 4 + 2) :: toLEBytes 8 (v / 64)).drop 2
        = toLEBytes 8 (v / 64) from rfl]
  rw [hfrom]
  rw [if_neg (show ¬ 2 ^ 58 - 1 < v / 64 by omega)]
  rw [show (v % 64 * 4 + 2) >>> 2 = v % 64 by rw [Nat.shiftRight_eq_div_pow]; omega]
  rw [Nat.shiftLeft_eq]
  rw [lor_eq_add_of_lt 6 (v / 64 * 2 ^ 6) (v % 64) (by omega) (by omega)]
  congr 2
  omega

/-! ## Behaviour of the blocking adapter's Incomplete loop -/

/-- The refill loop in the `Err(Incomplete)` arm always returns the original
parse result: it reads from the source but never re-runs the parser. -/
lemma blockingNextIncompleteLoop_eq {α : Type} (result : α) :
    ∀ (remaining : Nat) (stream_complete : Bool) (read_size exp : Nat),
      blockingNextIncompleteLoop result remaining stream_complete read_size exp
        = result := by
  have htrue : ∀ remaining read_size exp : Nat,
      blockingNextIncompleteLoop result remaining true read_size exp = result := by
    intro remaining
    induction remaining using Nat.strong_induction_on with
    | _ remaining ih =>
      intro read_size exp
      unfold blockingNextIncompleteLoop
      by_cases h : min read_size remaining = 0
      · rw [dif_pos h]
      · rw [dif_neg h]
        have hle := Nat.min_le_right read_size remaining
        exact ih (remaining - min read_size remaining) (by omega) _ _
  have hfalse : ∀ remaining read_size exp : Nat,
      blockingNextIncompleteLoop result remaining false read_size exp = result := by
    intro remaining
    induction remaining using Nat.strong_induction_on with
    | _ remaining ih =>
      intro read_size exp
      unfold blockingNextIncompleteLoop
      by_cases h : min read_size remaining = 0
      · rw [dif_pos h]
        exact htrue _ _ _
      · rw [dif_neg h]
        have hle := Nat.min_le_right read_size remaining
        exact ih (remaining - min read_size remaining) (by omega) _ _
  intro remaining stream_complete read_size exp
  cases stream_complete
  · exact hfalse _ _ _
  · exact htrue _ _ _

/-! ## Claim theorems -/

/-- C1: For every `u64` value `v`, each VarUInt codec round-trips losslessly:
the Ion 1.0 decoder `VarUInt::read` applied to the output of
`VarUInt::write_u64 v` yields `v` again with `size_in_bytes` equal to the
number of bytes written, and the Ion 1.1 decoder `decode_var_uint` applied to
the output of `encode_var_uint v` returns `(n, v)` where `n` is the byte
count the encoder reported writing. -/
theorem claim1_varuint_roundtrip (v : Nat) (hv : v < 2 ^ 64) :
    VarUInt.read (VarUInt.write_u64 v) = some ((VarUInt.write_u64 v).length, v)
    ∧ decode_var_uint (encode_var_uint v)
        = some ((encode_var_uint v).length, v) := by
  by_cases hz : v = 0
  · subst hz
    exact ⟨by decide, by decide⟩
  · obtain ⟨n, hn, hlo, hhi⟩ := exists_digit_range v (by omega) hv
    refine ⟨varuint10_roundtrip_of_range n v hn hlo hhi hv, ?_⟩
    rcases Nat.lt_or_ge n 8 with h8 | h8
    · have hs := varuint11_roundtrip_small (n + 1) v (by omega) (by omega)
        (by simpa using hlo) hhi
      rw [hs.2]
      exact hs.1
    · interval_cases n
      · have hs := varuint11_roundtrip_nine v (by omega) (by omega)
        rw [hs.2]
        exact hs.1
      · have hs := varuint11_roundtrip_ten v (by omega) (by omega)
        rw [hs.2]
        exact hs.1

/-- Witness for C1 at the concrete input 300. -/
theorem claim1_varuint_roundtrip_witness :
    VarUInt.read (VarUInt.write_u64 300)
        = some ((VarUInt.write_u64 300).length, 300)
    ∧ decode_var_uint (encode_var_uint 300)
        = some ((encode_var_uint 300).length, 300) :=
  claim1_varuint_roundtrip 300 (by norm_num)

/-- C2: the Ion 1.0 encoder `VarUInt::write_u64` and the Ion 1.1 encoder
`encode_var_uint` produce encodings of exactly the same length for every
`u64` value. -/
theorem claim2_encoded_size_agree (v : Nat) (hv : v < 2 ^ 64) :
    (VarUInt.write_u64 v).length = (encode_var_uint v).length := by
  by_cases hz : v = 0
  · subst hz
    decide
  · obtain ⟨n, hn, hlo, hhi⟩ := exists_digit_range v (by omega) hv
    rw [write_u64_length_of_range n v hn hlo hhi]
    rcases Nat.lt_or_ge n 8 with h8 | h8
    · rw [(varuint11_roundtrip_small (n + 1) v (by omega) (by omega)
        (by simpa using hlo) hhi).2]
    · interval_cases n
      · rw [(varuint11_roundtrip_nine v (by omega) (by omega)).2]
      · rw [(varuint11_roundtrip_ten v (by omega) (by omega)).2]

/-- Witness for C2 at the boundary inputs 0 and `u64::MAX`. -/
theorem claim2_encoded_size_agree_witness :
    (VarUInt.write_u64 0).length = (encode_var_uint 0).length
    ∧ (VarUInt.write_u64 (2 ^ 64 - 1)).length
        = (encode_var_uint (2 ^ 64 - 1)).length :=
  ⟨claim2_encoded_size_agree 0 (by norm_num),
   claim2_encoded_size_agree (2 ^ 64 - 1) (by norm_num)⟩

/-- C6 counterexample: `encode_var_uint` produces none of the three byte
strings the claim predicts.  (The module's own `test_encode` expects the
claimed bytes for 127 and `u64::MAX`, so the unit tests in
src/ion_1_1/alt.rs disagree with the code they test.) -/
theorem claim6_boundary_bytes_counterexample :
    encode_var_uint 127 ≠ [0xFE]
    ∧ encode_var_uint 128 ≠ [0xFD, 0x03]
    ∧ encode_var_uint (2 ^ 64 - 1)
        ≠ [0xFF, 0xFD, 0xFF, 0xFF, 0xFF, 0xFF, 0xFF, 0xFF, 0xFF, 0x03] :=
  ⟨by decide, by decide, by decide⟩

/-- C6 amended: the bytes `encode_var_uint` actually produces at the claimed
boundary inputs: 127 encodes as the single byte `0xFF`, 128 as `0x02 0x02`,
and `u64::MAX` as `00 FE FF FF FF FF FF FF FF 03`. -/
theorem claim6_boundary_bytes_amended :
    encode_var_uint 127 = [0xFF]
    ∧ encode_var_uint 128 = [0x02, 0x02]
    ∧ encode_var_uint (2 ^ 64 - 1)
        = [0x00, 0xFE, 0xFF, 0xFF, 0xFF, 0xFF, 0xFF, 0xFF, 0xFF, 0x03] :=
  ⟨by decide, by decide, by decide⟩

/-- C10: constructing the Ion 1.0 raw binary writer immediately writes the
four-byte IVM `E0 01 00 EA` to the output sink, before any value is written
and before any `flush`: the new writer's sink holds exactly the prior output
followed by the IVM, its arena is empty, and no encoding buffer exists yet. -/
theorem claim10_new_writes_ivm (output : List Nat) :
    (LazyRawBinaryWriter_1_0.new output).output
        = output ++ [0xE0, 0x01, 0x00, 0xEA]
    ∧ (LazyRawBinaryWriter_1_0.new output).arena = []
    ∧ (LazyRawBinaryWriter_1_0.new output).encoding_buffer_ptr = none :=
  ⟨rfl, rfl, rfl⟩

/-- C8: writing a struct field whose name token is text through the raw
binary writer fails with an `Encoding` error, and the struct's encoding
buffer is exactly as it was before the call — no field-name VarUInt and no
value bytes are appended. -/
theorem claim8_struct_text_name_error (encoding_buffer value_bytes : List Nat)
    (t : String) :
    BinaryStructWriter_1_0.write encoding_buffer (RawSymbolTokenRef.text t)
        value_bytes
      = (some IonErrorKind.Encoding, encoding_buffer) :=
  rfl

/-- C5: when a container writer is closed, the header is emitted after the
body into the parent buffer: a body of length `L ≤ 13` gets the single header
byte `type_code | L`, a longer body gets `type_code | 0x0E` followed by a
VarUInt of `L`, and the scratch buffer's contents follow unchanged; in
particular, writing the list `[1, 2, 3]` with no annotations produces
`B6 21 01 21 02 21 03`. -/
theorem claim5_container_end (w : BinaryContainerWriter_1_0) :
    (w.encoding_buffer.length ≤ 13 →
      BinaryContainerWriter_1_0.end_ w
        = w.parent_buffer ++ [w.type_code ||| w.encoding_buffer.length]
            ++ w.encoding_buffer)
    ∧ (13 < w.encoding_buffer.length →
      BinaryContainerWriter_1_0.end_ w
        = w.parent_buffer ++ [w.type_code ||| 0xE]
            ++ VarUInt.write_u64 w.encoding_buffer.length ++ w.encoding_buffer)
    ∧ BinaryContainerWriter_1_0.end_
        { type_code := 0xB0, parent_buffer := [],
          encoding_buffer :=
            BinaryValueWriter_1_0.write_i64
              (BinaryValueWriter_1_0.write_i64
                (BinaryValueWriter_1_0.write_i64 [] 1) 2) 3 }
        = [0xB6, 0x21, 0x01, 0x21, 0x02, 0x21, 0x03] := by
  refine ⟨?_, ?_, by decide⟩
  · intro h
    unfold BinaryContainerWriter_1_0.end_ MAX_INLINE_LENGTH
    rw [if_pos h, Nat.mod_eq_of_lt (show w.encoding_buffer.length < 256 by omega)]
  · intro h
    unfold BinaryContainerWriter_1_0.end_ MAX_INLINE_LENGTH
    rw [if_neg (by omega)]

/-- Witness for C5 at a concrete container with a 2-byte body. -/
theorem claim5_container_end_witness :
    BinaryContainerWriter_1_0.end_ ⟨0xB0, [], [0x21, 0x01]⟩
      = [] ++ [0xB0 ||| [0x21, 0x01].length] ++ [0x21, 0x01] :=
  (claim5_container_end ⟨0xB0, [], [0x21, 0x01]⟩).1 (by decide)

/-- C7 (code behaviour): when the wrapped parser returns `Incomplete`, the
blocking adapter's `next` returns that same `Incomplete` error no matter how
much unread data remains in the source — the refill loop never re-runs the
parser, so the claimed silent recovery never happens. -/
theorem claim7_blocking_incomplete_not_recovered (remaining : Nat)
    (stream_complete : Bool) (expected_read_size : Nat) :
    BlockingLazyRawReader.next
        (Except.error IonErrorKind.Incomplete : Except IonErrorKind (List Nat))
        remaining stream_complete expected_read_size
      = Except.error IonErrorKind.Incomplete := by
  unfold BlockingLazyRawReader.next
  exact blockingNextIncompleteLoop_eq _ _ _ _ _

/-- C9 (code behaviour): `flush` writes the top-level buffer to the sink and
resets the arena, but it leaves `encoding_buffer_ptr` set; consequently the
first `value_writer` call after `flush` reuses the pre-flush buffer pointer
(now dangling into the reset arena) instead of allocating a fresh buffer. -/
theorem claim9_flush_keeps_buffer_ptr (w : WriterState) :
    (LazyRawBinaryWriter_1_0.flush w).arena = []
    ∧ (LazyRawBinaryWriter_1_0.flush w).encoding_buffer_ptr
        = w.encoding_buffer_ptr
    ∧ (∀ p, w.encoding_buffer_ptr = some p →
        LazyRawBinaryWriter_1_0.value_writer (LazyRawBinaryWriter_1_0.flush w)
          = (LazyRawBinaryWriter_1_0.flush w, p)) := by
  refine ⟨rfl, rfl, ?_⟩
  intro p hp
  have hptr : (LazyRawBinaryWriter_1_0.flush w).encoding_buffer_ptr = some p := by
    rw [show (LazyRawBinaryWriter_1_0.flush w).encoding_buffer_ptr
          = w.encoding_buffer_ptr from rfl, hp]
  simp only [LazyRawBinaryWriter_1_0.value_writer, hptr]

/-- Witness for C9: a writer that holds one encoded value and then flushes
still carries `some 0` as its buffer pointer, and the next `value_writer`
reuses it. -/
theorem claim9_flush_keeps_buffer_ptr_witness :
    LazyRawBinaryWriter_1_0.value_writer
        (LazyRawBinaryWriter_1_0.flush
          ⟨[0xE0, 0x01, 0x00, 0xEA], [[0x21, 0x01]], some 0⟩)
      = (LazyRawBinaryWriter_1_0.flush
          ⟨[0xE0, 0x01, 0x00, 0xEA], [[0x21, 0x01]], some 0⟩, 0) :=
  (claim9_flush_keeps_buffer_ptr
    ⟨[0xE0, 0x01, 0x00, 0xEA], [[0x21, 0x01]], some 0⟩).2.2 0 rfl

/-- C3 (amended): `Reader::next` consumes a raw value as a symbol-table LST
(interpreting it and continuing) if and only if the value is a non-null
struct whose FIRST annotation SID equals 3; every other value — including a
struct that carries SID 3 later in its annotation list, and a null struct —
is returned to the caller as an ordinary value. -/
theorem claim3_lst_detection (t : IonType) (is_null : Bool) (annots : List Nat)
    (fields : List LstField) (rest : List RawItem) (st : SymbolTable) :
    Reader.next (RawItem.value t is_null annots fields :: rest) st
      = if t = IonType.Struct ∧ is_null = false ∧ annots.head? = some 3 then
          (match read_symbol_table_loop fields false st with
            | none => none
            | some st2 => Reader.next rest st2)
        else some (st, rest, some (t, is_null)) := by
  simp only [Reader.next]
  by_cases hts : t = IonType.Struct ∧ is_null = false
  · obtain ⟨rfl, rfl⟩ := hts
    rw [if_pos ⟨rfl, rfl⟩]
    cases annots with
    | nil =>
      rw [if_neg (by simp)]
    | cons a as =>
      by_cases ha : a = 3
      · subst ha
        rw [if_pos ⟨rfl, rfl, rfl⟩]
      · rw [if_neg (by simp [ha])]
        split <;> simp_all
  · rw [if_neg hts, if_neg (fun h => hts ⟨h.1, h.2.1⟩)]

/-- C3 counterexample: a non-null struct annotated `[$10, $3]` has an
annotation whose SID equals 3, yet `Reader::next` returns it as an ordinary
value instead of consuming it; a null struct annotated `[$3]` is likewise
returned. -/
theorem claim3_lst_detection_counterexample :
    (3 ∈ ([10, 3] : List Nat))
    ∧ Reader.next [RawItem.value IonType.Struct false [10, 3] []]
        SymbolTable.new
        = some (SymbolTable.new, [], some (IonType.Struct, false))
    ∧ Reader.next [RawItem.value IonType.Struct true [3] []] SymbolTable.new
        = some (SymbolTable.new, [], some (IonType.Struct, true)) :=
  ⟨by decide, rfl, rfl⟩

/-- C4: after the reader encounters an IVM (and after any
`SymbolTable::reset`), the symbol table equals the system-symbol prefix
exactly: its length is 10; `text_for i` returns precisely the i-th system
symbol (`$0, $ion, $ion_1_0, $ion_symbol_table, name, version, imports,
symbols, max_id, $ion_shared_symbol_table`) for `i < 10` and nothing for
`i ≥ 10`; the reverse mapping contains exactly those ten entries; and
`Reader::next` applies the reset when it meets a version marker. -/
theorem claim4_ivm_resets_symbol_table (st : SymbolTable) :
    (SymbolTable.reset st).len = 10
    ∧ (∀ i, i < 10 →
        (SymbolTable.reset st).text_for i = SYSTEM_SYMBOLS.get? i)
    ∧ (∀ i, 10 ≤ i → (SymbolTable.reset st).text_for i = none)
    ∧ (∀ s id, (SymbolTable.reset st).sid_for s = some id
        ↔ id < 10 ∧ SYSTEM_SYMBOLS.get? id = some s)
    ∧ (∀ (rest : List RawItem) (tbl : SymbolTable),
        Reader.next (RawItem.ivm :: rest) tbl
          = Reader.next rest (SymbolTable.reset tbl)) := by
  have hreset : SymbolTable.reset st
      = ⟨SYSTEM_SYMBOLS,
         [("$ion_shared_symbol_table", 9), ("max_id", 8), ("symbols", 7),
          ("imports", 6), ("version", 5), ("name", 4),
          ("$ion_symbol_table", 3), ("$ion_1_0", 2), ("$ion", 1),
          ("$0", 0)]⟩ := by
    rfl
  refine ⟨rfl, fun i _ => rfl, ?_, ?_, fun rest tbl => rfl⟩
  · intro i hi
    rw [hreset]
    show SYSTEM_SYMBOLS.get? i = none
    have hlen : SYSTEM_SYMBOLS.length = 10 := rfl
    exact List.get?_eq_none.mpr (by omega)
  · intro s id
    rw [hreset]
    show assocLookup _ s = some id ↔ _
    constructor
    · intro h
      simp only [assocLookup] at h
      split_ifs at h <;> simp_all [SYSTEM_SYMBOLS] <;> (subst h; decide)
    · rintro ⟨hid, hget⟩
      interval_cases id <;>
        (simp only [SYSTEM_SYMBOLS, List.get?, Option.some.injEq] at hget
         subst hget
         decide)

/-- Witness for C4 at the concrete table `SymbolTable.new` and concrete
indices. -/
theorem claim4_ivm_resets_symbol_table_witness :
    (SymbolTable.reset SymbolTable.new).text_for 3 = SYSTEM_SYMBOLS.get? 3
    ∧ (SymbolTable.reset SymbolTable.new).text_for 10 = none
    ∧ ((SymbolTable.reset SymbolTable.new).sid_for "name" = some 4
        ↔ 4 < 10 ∧ SYSTEM_SYMBOLS.get? 4 = some "name") :=
  ⟨(claim4_ivm_resets_symbol_table SymbolTable.new).2.1 3 (by norm_num),
   (claim4_ivm_resets_symbol_table SymbolTable.new).2.2.1 10 (by norm_num),
   (claim4_ivm_resets_symbol_table SymbolTable.new).2.2.2.1 "name" 4⟩

end IonRust
